import Mathlib

/-!
Verification of the mini-cloud traffic-distribution design and of the demo
Express server's handlers.

The traffic-distribution core (TargetPool / HealthMonitor / ProxyRouter) is
specified in the repository's design document but has no implementation among
the source files (the sources hold only the nginx configuration, the
experiment write-ups and the demo server), so its operations are modelled
here directly from the spec's words.  The demo server's handlers
(GET /users, POST /users, GET /compute) are translated from the Express
source (`index.js`).
-/

namespace MiniCloud

/-- Modelled from the spec: the health states of a backend Target (§3, §4.2);
the Target/TargetPool implementation is not among the repository's source
files. -/
inductive TState
  | Healthy
  | Quarantined
  | Probing
deriving DecidableEq, Repr

/-- Modelled from the spec: a Target is one backend endpoint plus its observed
health state (§3).  The `address` field is irrelevant to the claims and is
represented by the numeric `id`. -/
structure Target where
  id : Nat
  state : TState
  quarantinedAt : Nat
  consecutiveFailures : Nat
deriving DecidableEq, Repr

/-- Modelled from the spec: the recognized configuration surface (§6).
Durations are modelled as natural numbers of time units. -/
structure Config where
  failureThreshold : Nat
  quarantinePeriod : Nat
  connectTimeout : Nat
  responseTimeout : Nat
  maxRetries : Nat
deriving DecidableEq, Repr

/-- Modelled from the spec: the TargetPool holds the ordered targets and the
monotonically advancing round-robin cursor (§3, §4.1). -/
structure Pool where
  targets : List Target
  cursor : Nat
deriving DecidableEq, Repr

/-- Modelled from the spec: the classified result of one forwarding attempt
(§4.2, glossary). -/
inductive Outcome
  | Success
  | Timeout
  | ConnectionFailure
deriving DecidableEq, Repr

/-- Timeout and ConnectionFailure are both treated as failure for the state
machine (§4.2). -/
def isFailure : Outcome → Bool
  | .Success => false
  | .Timeout => true
  | .ConnectionFailure => true

/-- Modelled from the spec: a Target is eligible iff its state is Healthy or
Probing; a Quarantined Target whose quarantine period has elapsed is promoted
lazily at selection time and hence counts as selectable (§4.1, §4.2). -/
def eligibleAt (cfg : Config) (now : Nat) (t : Target) : Bool :=
  match t.state with
  | .Healthy => true
  | .Probing => true
  | .Quarantined => decide (t.quarantinedAt + cfg.quarantinePeriod ≤ now)

/-- Modelled from the spec: lazy promotion — when Select() encounters a
Quarantined Target whose quarantine period has elapsed, it is promoted to
Probing (§4.2). -/
def promote (cfg : Config) (now : Nat) (t : Target) : Target :=
  if t.state = .Quarantined ∧ t.quarantinedAt + cfg.quarantinePeriod ≤ now then
    { t with state := .Probing }
  else t

/-- Index order of the wrapping scan that starts at the cursor (§4.1). -/
def scanOrder (n start : Nat) : List Nat :=
  (List.range n).map (fun k => (start + k) % n)

/-- Whether the target at index `i` of the list is selectable now. -/
def eligIdx (cfg : Config) (now : Nat) (ts : List Target) (i : Nat) : Bool :=
  match ts[i]? with
  | some t => eligibleAt cfg now t
  | none => false

/-- Modelled from the spec: the error taxonomy entry for a pool with no
selectable target (§7). -/
inductive SelectError
  | NoHealthyTargets
deriving DecidableEq, Repr

/-- Modelled from the spec: `Select()` scans forward from the cursor
(wrapping) for the first eligible Target, promotes it if it was a Quarantined
Target whose period elapsed, and advances the cursor past it (§4.1, §4.2).
It returns the chosen index, the chosen (possibly promoted) Target and the
updated pool, or fails with `NoHealthyTargets`. -/
def select (cfg : Config) (now : Nat) (p : Pool) :
    Except SelectError (Nat × Target × Pool) :=
  match (scanOrder p.targets.length p.cursor).find? (eligIdx cfg now p.targets) with
  | none => .error .NoHealthyTargets
  | some i =>
    match p.targets[i]? with
    | none => .error .NoHealthyTargets
    | some t =>
      .ok (i, promote cfg now t, ⟨p.targets.set i (promote cfg now t), i + 1⟩)

/-- Modelled from the spec: `Record(target, outcome)` — the HealthMonitor
state machine of §4.2.  Success resets the failure counter (§3 invariant);
a failure on a Healthy Target increments the counter and quarantines the
Target exactly when the counter reaches `failureThreshold`; a failure on a
Probing Target re-quarantines it. -/
def record (cfg : Config) (now : Nat) (t : Target) (o : Outcome) : Target :=
  match o, t.state with
  | .Success, .Healthy => { t with consecutiveFailures := 0 }
  | .Success, .Probing => { t with state := .Healthy, consecutiveFailures := 0 }
  | .Success, .Quarantined => { t with consecutiveFailures := 0 }
  | _, .Healthy =>
    if t.consecutiveFailures + 1 < cfg.failureThreshold then
      { t with consecutiveFailures := t.consecutiveFailures + 1 }
    else
      { t with state := .Quarantined, quarantinedAt := now, consecutiveFailures := 0 }
  | _, .Probing => { t with state := .Quarantined, quarantinedAt := now }
  | _, .Quarantined => t

/-- Folding a sequence of outcomes into one Target through `record`. -/
def recordSeq (cfg : Config) (now : Nat) : Target → List Outcome → Target
  | t, [] => t
  | t, o :: os => recordSeq cfg now (record cfg now t o) os

/-- The indices chosen by a run of selections with the forwarding step
stubbed out (no health-state changes), as in the spec's fairness property
(§8). -/
def selectRun (cfg : Config) (now : Nat) : Pool → Nat → List Nat
  | _, 0 => []
  | p, m + 1 =>
    match select cfg now p with
    | .error _ => []
    | .ok (i, _, p') => i :: selectRun cfg now p' m

/-- Modelled from the spec: what `Forward` hands back — a genuine backend
response (identified by the Target that served it) or a synthesized
failure (§4.3). -/
inductive FwdResult
  | backend (t : Target)
  | synthesized
deriving DecidableEq, Repr

/-- Observable trace of one `Forward` call: its result, the total time spent
in forwarding attempts, and how many network calls were attempted. -/
structure FwdTrace where
  result : FwdResult
  time : Nat
  networkCalls : Nat
deriving DecidableEq, Repr

/-- Modelled from the spec: the bounded retry loop of `Forward` (§4.3).
`net` is the network oracle: for an attempt number and a Target it yields the
classified outcome and the elapsed time of that attempt (timeouts bound each
attempt by `connectTimeout + responseTimeout`, which the theorems take as a
hypothesis on `net`).  On `NoHealthyTargets` the loop returns the synthesized
failure at once, with no network call; on a failure outcome it records the
outcome and retries with a fresh selection while attempts remain. -/
def forwardGo (cfg : Config) (net : Nat → Target → Outcome × Nat) (now : Nat) :
    Pool → Nat → Nat → FwdTrace
  | _, _, 0 => ⟨.synthesized, 0, 0⟩
  | p, attempt, fuel + 1 =>
    match select cfg now p with
    | .error _ => ⟨.synthesized, 0, 0⟩
    | .ok (i, t, p') =>
      match (net attempt t).1 with
      | .Success => ⟨.backend t, (net attempt t).2, 1⟩
      | _ =>
        let rest := forwardGo cfg net now
          ⟨p'.targets.set i (record cfg now t (net attempt t).1), p'.cursor⟩
          (attempt + 1) fuel
        ⟨rest.result, (net attempt t).2 + rest.time, rest.networkCalls + 1⟩

/-- Modelled from the spec: `Forward(request)` makes at most
`maxRetries + 1` attempts (§4.3). -/
def forward (cfg : Config) (net : Nat → Target → Outcome × Nat) (now : Nat)
    (p : Pool) : FwdTrace :=
  forwardGo cfg net now p 0 (cfg.maxRetries + 1)

/-- A user record of the demo Express server (`index.js`). -/
structure User where
  id : Nat
  name : String
  email : String
deriving DecidableEq, Repr

/-- The in-memory `users` array the demo server starts with. -/
def initialUsers : List User :=
  [⟨1, "John Doe", "john@example.com"⟩, ⟨2, "Jane Smith", "jane@example.com"⟩]

/-- Falsiness of an optional JSON string field, as JavaScript's `!x`
computes it in `if (!name || !email)`: an absent field and the empty string
are falsy. -/
def isFalsy : Option String → Bool
  | none => true
  | some s => decide (s = "")

/-- Response body of `POST /users`: HTTP status, `success` flag and the
created user (when one was created). -/
structure PostUsersReply where
  status : Nat
  success : Bool
  created : Option User
deriving DecidableEq, Repr

/-- The `POST /users` handler of `index.js`: reject a falsy `name` or
`email` with 400, otherwise append one user with `id = users.length + 1`
and answer 201.  Returns the reply and the updated `users` array. -/
def postUsers (users : List User) (nm em : Option String) :
    PostUsersReply × List User :=
  if isFalsy nm || isFalsy em then
    (⟨400, false, none⟩, users)
  else
    (⟨201, true, some ⟨users.length + 1, nm.getD "", em.getD ""⟩⟩,
      users ++ [⟨users.length + 1, nm.getD "", em.getD ""⟩])

/-- Response body of `GET /users`: HTTP status, `success` flag, `count` and
`data`. -/
structure GetUsersReply where
  status : Nat
  success : Bool
  count : Nat
  data : List User
deriving DecidableEq, Repr

/-- The `GET /users` handler of `index.js`: answers 200 with
`count = users.length` and `data = users`, leaving the array unchanged. -/
def getUsers (users : List User) : GetUsersReply × List User :=
  (⟨200, true, users.length, users⟩, users)

/-- The summation loop of `GET /compute` in `index.js`:
`for (let i = 0; i < n; i++) total += i`. -/
def computeLoop : Nat → Nat
  | 0 => 0
  | n + 1 => computeLoop n + n

/-- Response body of `GET /compute`. -/
structure ComputeReply where
  success : Bool
  total : Nat
deriving DecidableEq, Repr

/-- The `GET /compute` handler of `index.js`: sums 0 .. 1e7 - 1 and answers
`success: true` with the total; the `users` state is untouched. -/
def computeHandler (users : List User) : ComputeReply × List User :=
  (⟨true, computeLoop 10000000⟩, users)

/-- Setting an index of a list to the element it already holds is the
identity. -/
theorem set_get_self {α : Type} (l : List α) (i : Nat) (a : α)
    (h : l[i]? = some a) : l.set i a = l := by
  induction l generalizing i with
  | nil => simp at h
  | cons x xs ih =>
    cases i with
    | zero => simp at h; simp [List.set, h]
    | succ n => simp only [List.set]; rw [ih n (by simpa using h)]

/-- Every residue below `n` is hit by the wrapping scan within `n` steps. -/
theorem exists_shift_mod (n c j : Nat) (hn : 0 < n) (hj : j < n) :
    ∃ k, k < n ∧ (c + k) % n = j := by
  have hcm : c % n < n := Nat.mod_lt _ hn
  have hdm : n * (c / n) + c % n = c := Nat.div_add_mod c n
  by_cases h : c % n ≤ j
  · refine ⟨j - c % n, by omega, ?_⟩
    have heq : c + (j - c % n) = n * (c / n) + j := by
      generalize n * (c / n) = q at hdm ⊢
      omega
    rw [heq, Nat.mul_add_mod, Nat.mod_eq_of_lt hj]
  · refine ⟨j + n - c % n, by omega, ?_⟩
    have heq : c + (j + n - c % n) = n * (c / n + 1) + j := by
      rw [Nat.mul_add, Nat.mul_one]
      generalize n * (c / n) = q at hdm ⊢
      omega
    rw [heq, Nat.mul_add_mod, Nat.mod_eq_of_lt hj]

/-- Indices produced by the wrapping scan are valid indices. -/
theorem mem_scanOrder_lt {n s i : Nat} (h : i ∈ scanOrder n s) : i < n := by
  rcases List.mem_map.1 h with ⟨k, hk, rfl⟩
  exact Nat.mod_lt _ (Nat.lt_of_le_of_lt (Nat.zero_le k) (List.mem_range.1 hk))

/-- Every valid index appears in the wrapping scan. -/
theorem mem_scanOrder_of_lt {n s j : Nat} (hj : j < n) : j ∈ scanOrder n s := by
  have hn : 0 < n := Nat.lt_of_le_of_lt (Nat.zero_le j) hj
  rcases exists_shift_mod n s j hn hj with ⟨k, hk, hkj⟩
  exact List.mem_map.2 ⟨k, List.mem_range.2 hk, hkj⟩

/-- A Target that is not Quarantined is untouched by promotion. -/
theorem promote_of_ne_quarantined {cfg : Config} {now : Nat} {t : Target}
    (h : t.state ≠ .Quarantined) : promote cfg now t = t := by
  unfold promote
  rw [if_neg]
  intro hc
  exact h hc.1

/-- A Target in an eligible state is selectable. -/
theorem eligibleAt_of_state {cfg : Config} {now : Nat} {t : Target}
    (h : t.state = .Healthy ∨ t.state = .Probing) :
    eligibleAt cfg now t = true := by
  rcases h with h | h <;> simp [eligibleAt, h]

/-- Ineligibility means the Target is Quarantined with an unexpired
quarantine period. -/
theorem eligibleAt_false_iff {cfg : Config} {now : Nat} {t : Target} :
    eligibleAt cfg now t = false ↔
      t.state = .Quarantined ∧ now < t.quarantinedAt + cfg.quarantinePeriod := by
  unfold eligibleAt
  cases hs : t.state <;> simp [hs, Nat.lt_iff_add_one_le, Nat.not_le]

/-- The promotion of a selectable Target lands in an eligible state. -/
theorem promote_state_of_eligible {cfg : Config} {now : Nat} {t : Target}
    (h : eligibleAt cfg now t = true) :
    (promote cfg now t).state = .Healthy ∨ (promote cfg now t).state = .Probing := by
  unfold promote
  cases hs : t.state with
  | Healthy => rw [if_neg (by simp [hs])]; exact Or.inl hs
  | Probing => rw [if_neg (by simp [hs])]; exact Or.inr hs
  | Quarantined =>
    have hle : t.quarantinedAt + cfg.quarantinePeriod ≤ now := by
      simpa [eligibleAt, hs] using h
    rw [if_pos ⟨rfl, hle⟩]
    exact Or.inr rfl

/-- Inversion of a successful selection: the chosen index held a selectable
Target, the returned Target is its promotion, and the cursor advanced past
it. -/
theorem select_ok_inv {cfg : Config} {now : Nat} {p : Pool} {i : Nat}
    {t : Target} {p' : Pool} (h : select cfg now p = .ok (i, t, p')) :
    ∃ u, p.targets[i]? = some u ∧ eligibleAt cfg now u = true ∧
      t = promote cfg now u ∧ p' = ⟨p.targets.set i t, i + 1⟩ := by
  unfold select at h
  split at h
  · exact Except.noConfusion h
  · rename_i j hf
    split at h
    · exact Except.noConfusion h
    · rename_i u hg
      have hj : eligIdx cfg now p.targets j = true := List.find?_some hf
      simp only [Except.ok.injEq, Prod.mk.injEq] at h
      obtain ⟨rfl, rfl, rfl⟩ := h
      refine ⟨u, hg, ?_, rfl, rfl⟩
      simpa only [eligIdx, hg] using hj

/-- Selection fails exactly when no Target in the pool is selectable. -/
theorem select_error_iff (cfg : Config) (now : Nat) (p : Pool) :
    select cfg now p = .error .NoHealthyTargets ↔
      ∀ t ∈ p.targets, eligibleAt cfg now t = false := by
  constructor
  · intro h t ht
    rcases List.mem_iff_getElem?.1 ht with ⟨i, hi⟩
    have hlen : i < p.targets.length := by
      by_contra hge
      rw [List.getElem?_len_le (Nat.le_of_not_lt hge)] at hi
      exact absurd hi (by simp)
    unfold select at h
    split at h
    · rename_i hf
      have := List.find?_eq_none.1 hf i (mem_scanOrder_of_lt hlen)
      simpa only [eligIdx, hi, Bool.not_eq_true] using this
    · rename_i j hf
      split at h
      · rename_i hg
        have hjn : j < p.targets.length := mem_scanOrder_lt (List.mem_of_find?_eq_some hf)
        rw [List.getElem?_eq_getElem hjn] at hg
        exact absurd hg (by simp)
      · exact Except.noConfusion h
  · intro h
    unfold select
    split
    · rfl
    · rename_i j hf
      have hj : eligIdx cfg now p.targets j = true := List.find?_some hf
      split
      · rfl
      · rename_i u hg
        have helig : eligibleAt cfg now u = true := by
          simpa only [eligIdx, hg] using hj
        rw [h u (List.getElem?_mem hg)] at helig
        exact absurd helig (by simp)

/-- A pool with a selectable Target yields a successful selection. -/
theorem select_ok_total {cfg : Config} {now : Nat} {p : Pool}
    (h : ∃ t ∈ p.targets, eligibleAt cfg now t = true) :
    ∃ i t p', select cfg now p = .ok (i, t, p') := by
  cases he : select cfg now p with
  | error e =>
    cases e
    rcases h with ⟨t, ht, helig⟩
    rw [(select_error_iff cfg now p).1 he t ht] at helig
    exact absurd helig (by simp)
  | ok x =>
    exact ⟨x.1, x.2.1, x.2.2, rfl⟩

/-- A successful outcome always resets the consecutive-failure counter. -/
theorem record_success_cf (cfg : Config) (now : Nat) (u : Target) :
    (record cfg now u .Success).consecutiveFailures = 0 := by
  cases hu : u.state <;> simp [record, hu]

/-- A failure on a Healthy Target below the threshold increments the counter
and keeps the Target Healthy. -/
theorem record_failure_healthy_lt {cfg : Config} {now : Nat} {t : Target}
    {o : Outcome} (ho : isFailure o = true) (hs : t.state = .Healthy)
    (hlt : t.consecutiveFailures + 1 < cfg.failureThreshold) :
    record cfg now t o =
      { t with consecutiveFailures := t.consecutiveFailures + 1 } := by
  cases o with
  | Success => simp [isFailure] at ho
  | Timeout => simp [record, hs, hlt]
  | ConnectionFailure => simp [record, hs, hlt]

/-- A failure on a Healthy Target whose counter reaches the threshold
quarantines the Target, stamps `quarantinedAt` and resets the counter. -/
theorem record_failure_healthy_ge {cfg : Config} {now : Nat} {t : Target}
    {o : Outcome} (ho : isFailure o = true) (hs : t.state = .Healthy)
    (hge : cfg.failureThreshold ≤ t.consecutiveFailures + 1) :
    record cfg now t o =
      { t with state := .Quarantined, quarantinedAt := now,
               consecutiveFailures := 0 } := by
  cases o with
  | Success => simp [isFailure] at ho
  | Timeout => simp [record, hs, Nat.not_lt.2 hge]
  | ConnectionFailure => simp [record, hs, Nat.not_lt.2 hge]

/-- One step of `recordSeq`. -/
theorem recordSeq_cons (cfg : Config) (now : Nat) (t : Target) (o : Outcome)
    (os : List Outcome) :
    recordSeq cfg now t (o :: os) = recordSeq cfg now (record cfg now t o) os := rfl

/-- A run of consecutive failures that stays below the threshold keeps the
Target Healthy and adds its length to the counter. -/
theorem recordSeq_failures (cfg : Config) (now : Nat) :
    ∀ (os : List Outcome) (t : Target), t.state = .Healthy →
      (∀ o ∈ os, isFailure o = true) →
      t.consecutiveFailures + os.length < cfg.failureThreshold →
      (recordSeq cfg now t os).state = .Healthy ∧
        (recordSeq cfg now t os).consecutiveFailures =
          t.consecutiveFailures + os.length := by
  intro os
  induction os with
  | nil => intro t hs _ _; exact ⟨hs, by simp [recordSeq]⟩
  | cons o os ih =>
    intro t hs hf hlt
    have ho : isFailure o = true := hf o (by simp)
    have hlt1 : t.consecutiveFailures + 1 < cfg.failureThreshold := by
      simp only [List.length_cons] at hlt; omega
    rw [recordSeq_cons, record_failure_healthy_lt ho hs hlt1]
    have hrest := ih { t with consecutiveFailures := t.consecutiveFailures + 1 }
      hs (fun o' ho' => hf o' (List.mem_cons_of_mem o ho'))
      (by simp only [List.length_cons] at hlt ⊢; omega)
    exact ⟨hrest.1, by rw [hrest.2]; simp only [List.length_cons]; omega⟩

/-- A run of consecutive failures whose length brings the counter exactly to
the threshold quarantines the Target. -/
theorem recordSeq_quarantines (cfg : Config) (now : Nat) :
    ∀ (os : List Outcome) (t : Target), t.state = .Healthy →
      (∀ o ∈ os, isFailure o = true) → os ≠ [] →
      t.consecutiveFailures + os.length = cfg.failureThreshold →
      (recordSeq cfg now t os).state = .Quarantined := by
  intro os
  induction os with
  | nil => intro t _ _ hne _; exact absurd rfl hne
  | cons o os ih =>
    intro t hs hf _ hth
    have ho : isFailure o = true := hf o (by simp)
    cases os with
    | nil =>
      have hge : cfg.failureThreshold ≤ t.consecutiveFailures + 1 := by
        simp only [List.length_cons, List.length_nil] at hth; omega
      rw [recordSeq_cons, record_failure_healthy_ge ho hs hge]
      rfl
    | cons o2 os2 =>
      have hlt1 : t.consecutiveFailures + 1 < cfg.failureThreshold := by
        simp only [List.length_cons] at hth; omega
      rw [recordSeq_cons, record_failure_healthy_lt ho hs hlt1]
      exact ih { t with consecutiveFailures := t.consecutiveFailures + 1 } hs
        (fun o' ho' => hf o' (List.mem_cons_of_mem o ho')) (by simp)
        (by simp only [List.length_cons] at hth ⊢; omega)

/-- The wrapping scan from cursor `s` starts at index `s % n`. -/
theorem scanOrder_eq_cons (n s : Nat) (hn : 0 < n) :
    ∃ rest, scanOrder n s = (s % n) :: rest := by
  cases n with
  | zero => omega
  | succ m =>
    refine ⟨(List.range m).map (fun k => (s + (k + 1)) % (m + 1)), ?_⟩
    unfold scanOrder
    rw [List.range_succ_eq_map, List.map_cons, List.map_map]
    rfl

/-- In a pool whose Targets are all in an eligible state, selection picks
the index `cursor % length`, leaves every Target unchanged and advances the
cursor just past the chosen index. -/
theorem select_all_eligible_step (cfg : Config) (now : Nat) (ts : List Target)
    (c : Nat) (hne : ts ≠ [])
    (helig : ∀ t ∈ ts, t.state = .Healthy ∨ t.state = .Probing) :
    ∃ t, ts[c % ts.length]? = some t ∧
      select cfg now ⟨ts, c⟩ = .ok (c % ts.length, t, ⟨ts, c % ts.length + 1⟩) := by
  have hn : 0 < ts.length := List.length_pos.2 hne
  have hmod : c % ts.length < ts.length := Nat.mod_lt _ hn
  obtain ⟨t, ht⟩ : ∃ u, ts[c % ts.length]? = some u :=
    ⟨_, List.getElem?_eq_getElem hmod⟩
  refine ⟨t, ht, ?_⟩
  have htm : t ∈ ts := List.getElem?_mem ht
  have hstate := helig t htm
  have hIdx : eligIdx cfg now ts (c % ts.length) = true := by
    simp only [eligIdx, ht]
    exact eligibleAt_of_state hstate
  obtain ⟨rest, hso⟩ := scanOrder_eq_cons ts.length c hn
  have hfind : (scanOrder ts.length c).find? (eligIdx cfg now ts) =
      some (c % ts.length) := by
    rw [hso]
    exact List.find?_cons_of_pos _ hIdx
  have hpro : promote cfg now t = t :=
    promote_of_ne_quarantined (by rcases hstate with h | h <;> simp [h])
  have hbody : select cfg now ⟨ts, c⟩ =
      (match (scanOrder ts.length c).find? (eligIdx cfg now ts) with
        | none => Except.error SelectError.NoHealthyTargets
        | some i =>
          match ts[i]? with
          | none => Except.error SelectError.NoHealthyTargets
          | some u =>
            Except.ok (i, promote cfg now u,
              Pool.mk (ts.set i (promote cfg now u)) (i + 1))) := rfl
  rw [hbody, hfind]
  simp only [ht, hpro]
  rw [set_get_self ts (c % ts.length) t ht]

/-- With every Target eligible and the forwarding step stubbed, the chosen
indices of `m` selections from cursor `c` are `(c + k) % length` for
`k < m`. -/
theorem selectRun_all_eligible (cfg : Config) (now : Nat) (ts : List Target)
    (hne : ts ≠ [])
    (helig : ∀ t ∈ ts, t.state = .Healthy ∨ t.state = .Probing) :
    ∀ (m c : Nat), selectRun cfg now ⟨ts, c⟩ m =
      (List.range m).map (fun k => (c + k) % ts.length) := by
  intro m
  induction m with
  | zero => intro c; rfl
  | succ m ih =>
    intro c
    obtain ⟨t, ht, hsel⟩ := select_all_eligible_step cfg now ts c hne helig
    have hstep : selectRun cfg now ⟨ts, c⟩ (m + 1) =
        c % ts.length :: selectRun cfg now ⟨ts, c % ts.length + 1⟩ m := by
      rw [show selectRun cfg now ⟨ts, c⟩ (m + 1) =
          (match select cfg now ⟨ts, c⟩ with
           | .error _ => []
           | .ok (i, _, p') => i :: selectRun cfg now p' m) from rfl, hsel]
    rw [hstep, ih (c % ts.length + 1)]
    rw [List.range_succ_eq_map, List.map_cons, List.map_map]
    congr 1
    apply List.map_congr_left
    intro k hk
    show (c % ts.length + 1 + k) % ts.length = (c + Nat.succ k) % ts.length
    rw [Nat.add_assoc (c % ts.length) 1 k, Nat.mod_add_mod, Nat.add_comm 1 k]

/-- Each residue below `n` occurs exactly once in one wrapping scan. -/
theorem count_scanOrder (n c j : Nat) (hj : j < n) :
    (scanOrder n c).count j = 1 := by
  apply List.count_eq_one_of_mem
  · exact (List.nodup_range n).map_on (fun k1 hk1 k2 hk2 heq => by
      have h1 : k1 < n := List.mem_range.1 hk1
      have h2 : k2 < n := List.mem_range.1 hk2
      have hmod : k1 % n = k2 % n := Nat.ModEq.add_left_cancel' c heq
      rwa [Nat.mod_eq_of_lt h1, Nat.mod_eq_of_lt h2] at hmod)
  · exact mem_scanOrder_of_lt hj

/-- Each residue below `n` occurs exactly `a` times among the first `a * n`
wrapped indices. -/
theorem count_mod_multiple (n : Nat) (j : Nat) (hj : j < n) :
    ∀ (a c : Nat),
      ((List.range (a * n)).map (fun k => (c + k) % n)).count j = a := by
  intro a
  induction a with
  | zero => intro c; simp
  | succ a ih =>
    intro c
    have hsplit : (a + 1) * n = a * n + n := by ring
    rw [hsplit, List.range_add, List.map_append, List.count_append, ih c,
      List.map_map]
    have hmap : (List.range n).map
        ((fun k => (c + k) % n) ∘ (fun i => a * n + i)) = scanOrder n c := by
      apply List.map_congr_left
      intro k hk
      show (c + (a * n + k)) % n = (c + k) % n
      have h1 : c + (a * n + k) = c + k + a * n := by ring
      rw [h1, Nat.add_mul_mod_self_right]
    rw [hmap, count_scanOrder n c j hj]

/-- When selection fails, `Forward` synthesizes a failure at once: no time
spent, no network call. -/
theorem forward_of_select_error {cfg : Config} {net : Nat → Target → Outcome × Nat}
    {now : Nat} {p : Pool}
    (h : select cfg now p = .error .NoHealthyTargets) :
    forward cfg net now p = ⟨.synthesized, 0, 0⟩ := by
  unfold forward
  rw [forwardGo, h]

/-- Every `Forward` result is either synthesized or a backend response. -/
theorem fwdResult_total (r : FwdResult) :
    r = .synthesized ∨ ∃ t, r = .backend t := by
  cases r with
  | backend t => exact Or.inr ⟨t, rfl⟩
  | synthesized => exact Or.inl rfl

/-- With each attempt bounded by `connectTimeout + responseTimeout`, the
retry loop's total time is bounded by that sum times the attempt budget, and
it makes at most that many network calls. -/
theorem forwardGo_bound (cfg : Config) (net : Nat → Target → Outcome × Nat)
    (now : Nat)
    (hnet : ∀ a t, (net a t).2 ≤ cfg.connectTimeout + cfg.responseTimeout) :
    ∀ (fuel : Nat) (p : Pool) (attempt : Nat),
      (forwardGo cfg net now p attempt fuel).time ≤
        (cfg.connectTimeout + cfg.responseTimeout) * fuel ∧
      (forwardGo cfg net now p attempt fuel).networkCalls ≤ fuel := by
  intro fuel
  induction fuel with
  | zero => intro p attempt; exact ⟨Nat.le_refl 0, Nat.le_refl 0⟩
  | succ fuel ih =>
    intro p attempt
    rw [forwardGo]
    cases hsel : select cfg now p with
    | error e => exact ⟨Nat.zero_le _, Nat.zero_le _⟩
    | ok x =>
      obtain ⟨i, t, p'⟩ := x
      dsimp only
      cases ho : (net attempt t).1 with
      | Success =>
        dsimp only
        refine ⟨?_, Nat.succ_le_succ (Nat.zero_le fuel)⟩
        calc (net attempt t).2 ≤ cfg.connectTimeout + cfg.responseTimeout :=
              hnet attempt t
          _ ≤ (cfg.connectTimeout + cfg.responseTimeout) * (fuel + 1) :=
              Nat.le_mul_of_pos_right _ (Nat.succ_pos fuel)
      | Timeout =>
        dsimp only
        have hrest := ih ⟨p'.targets.set i (record cfg now t .Timeout), p'.cursor⟩
          (attempt + 1)
        refine ⟨?_, Nat.succ_le_succ hrest.2⟩
        calc (net attempt t).2 + _ ≤
            (cfg.connectTimeout + cfg.responseTimeout) +
              (cfg.connectTimeout + cfg.responseTimeout) * fuel :=
              Nat.add_le_add (hnet attempt t) hrest.1
          _ = (cfg.connectTimeout + cfg.responseTimeout) * (fuel + 1) := by
              rw [Nat.mul_succ, Nat.add_comm]
      | ConnectionFailure =>
        dsimp only
        have hrest := ih ⟨p'.targets.set i (record cfg now t .ConnectionFailure),
          p'.cursor⟩ (attempt + 1)
        refine ⟨?_, Nat.succ_le_succ hrest.2⟩
        calc (net attempt t).2 + _ ≤
            (cfg.connectTimeout + cfg.responseTimeout) +
              (cfg.connectTimeout + cfg.responseTimeout) * fuel :=
              Nat.add_le_add (hnet attempt t) hrest.1
          _ = (cfg.connectTimeout + cfg.responseTimeout) * (fuel + 1) := by
              rw [Nat.mul_succ, Nat.add_comm]

/-- C1 (amended): for every pool with at least one eligible Target (state
Healthy or Probing), Select() returns an eligible Target and never a
Quarantined one; Select() fails with NoHealthyTargets exactly when every
Target in the pool is Quarantined and its quarantine period has not yet
elapsed; and on that failure Forward immediately returns the synthesized
service-unavailable reply. -/
theorem C1_select_eligibility (cfg : Config) (now : Nat) (p : Pool) :
    ((∃ t ∈ p.targets, t.state = .Healthy ∨ t.state = .Probing) →
      ∃ i t p', select cfg now p = .ok (i, t, p') ∧
        (t.state = .Healthy ∨ t.state = .Probing)) ∧
    (select cfg now p = .error .NoHealthyTargets ↔
      ∀ t ∈ p.targets, t.state = .Quarantined ∧
        now < t.quarantinedAt + cfg.quarantinePeriod) ∧
    (∀ net : Nat → Target → Outcome × Nat,
      select cfg now p = .error .NoHealthyTargets →
        forward cfg net now p = ⟨.synthesized, 0, 0⟩) := by
  refine ⟨?_, ?_, fun net h => forward_of_select_error h⟩
  · rintro ⟨t, ht, hstate⟩
    obtain ⟨i, u, p', hsel⟩ := select_ok_total ⟨t, ht, eligibleAt_of_state hstate⟩
    obtain ⟨v, _, hvelig, hueq, _⟩ := select_ok_inv hsel
    refine ⟨i, u, p', hsel, ?_⟩
    rw [hueq]
    exact promote_state_of_eligible hvelig
  · rw [select_error_iff]
    constructor
    · intro h t ht
      exact eligibleAt_false_iff.1 (h t ht)
    · intro h t ht
      exact eligibleAt_false_iff.2 (h t ht)

/-- C1 counterexample: in a pool whose only Target is Quarantined but whose
quarantine period has elapsed, every Target is Quarantined yet Select()
succeeds (lazily promoting the Target to Probing), so the claim's
"fails exactly when every Target is Quarantined" is false as stated. -/
theorem C1_counterexample :
    (∀ t ∈ (⟨[⟨1, .Quarantined, 0, 0⟩], 0⟩ : Pool).targets,
        t.state = .Quarantined) ∧
    select (⟨3, 5, 1, 1, 1⟩ : Config) 5 ⟨[⟨1, .Quarantined, 0, 0⟩], 0⟩ =
      .ok (0, ⟨1, .Probing, 0, 0⟩, ⟨[⟨1, .Probing, 0, 0⟩], 1⟩) :=
  ⟨by decide, rfl⟩

/-- C2: starting from a Healthy Target with a zero counter, any run of
consecutive failure outcomes shorter than `failureThreshold` leaves the
Target Healthy with the counter equal to the number of failures, a run of
exactly `failureThreshold` failures quarantines it, and any Success outcome
resets any Target's counter to 0. -/
theorem C2_quarantine_at_threshold (cfg : Config) (now : Nat) (t : Target)
    (os : List Outcome) (hth : 1 ≤ cfg.failureThreshold)
    (hs : t.state = .Healthy) (hc : t.consecutiveFailures = 0)
    (hfail : ∀ o ∈ os, isFailure o = true) :
    (os.length < cfg.failureThreshold →
      (recordSeq cfg now t os).state = .Healthy ∧
        (recordSeq cfg now t os).consecutiveFailures = os.length) ∧
    (os.length = cfg.failureThreshold →
      (recordSeq cfg now t os).state = .Quarantined) ∧
    (∀ u : Target, (record cfg now u .Success).consecutiveFailures = 0) := by
  refine ⟨?_, ?_, record_success_cf cfg now⟩
  · intro hlt
    have hrun := recordSeq_failures cfg now os t hs hfail (by omega)
    exact ⟨hrun.1, by rw [hrun.2]; omega⟩
  · intro heq
    have hne : os ≠ [] := by
      intro h
      subst h
      simp at heq
      omega
    exact recordSeq_quarantines cfg now os t hs hfail hne (by omega)

/-- C2 witness: with the default threshold 3, the third consecutive failure
quarantines a fresh Healthy Target. -/
theorem C2_witness :
    (recordSeq (⟨3, 5, 1, 1, 1⟩ : Config) 7 ⟨1, .Healthy, 0, 0⟩
        [.Timeout, .ConnectionFailure, .Timeout]).state = .Quarantined :=
  (C2_quarantine_at_threshold ⟨3, 5, 1, 1, 1⟩ 7 ⟨1, .Healthy, 0, 0⟩
      [.Timeout, .ConnectionFailure, .Timeout] (by decide) rfl rfl
      (by decide)).2.1 rfl

/-- C3: round-robin fairness — in a pool of `N` Targets that are all
eligible, with forwarding stubbed out, a run of `M = a * N` selections picks
every index `j < N` exactly `M / N` times, from any starting cursor. -/
theorem C3_round_robin_fairness (cfg : Config) (now : Nat) (ts : List Target)
    (c M N a : Nat) (hN : ts.length = N) (hN0 : 0 < N) (hM : M = a * N)
    (helig : ∀ t ∈ ts, t.state = .Healthy ∨ t.state = .Probing)
    (j : Nat) (hj : j < N) :
    (selectRun cfg now ⟨ts, c⟩ M).count j = M / N := by
  subst hN
  subst hM
  rw [selectRun_all_eligible cfg now ts (List.length_pos.1 hN0) helig
    (a * ts.length) c]
  rw [count_mod_multiple ts.length j hj a c, Nat.mul_div_cancel a hN0]

/-- C3 witness: 3 eligible Targets, 6 selections, each index chosen
6 / 3 = 2 times. -/
theorem C3_round_robin_fairness_witness :
    (selectRun (⟨3, 5, 1, 1, 1⟩ : Config) 0
        ⟨[⟨1, .Healthy, 0, 0⟩, ⟨2, .Healthy, 0, 0⟩, ⟨3, .Probing, 0, 0⟩], 0⟩
        6).count 2 = 6 / 3 :=
  C3_round_robin_fairness ⟨3, 5, 1, 1, 1⟩ 0
    [⟨1, .Healthy, 0, 0⟩, ⟨2, .Healthy, 0, 0⟩, ⟨3, .Probing, 0, 0⟩]
    0 6 3 2 rfl (by decide) rfl (by decide) 2 (by decide)

/-- C4: promotion timing — a Quarantined Target is never the selected index
while strictly less than `quarantinePeriod` has elapsed since
`quarantinedAt`; at or after that boundary it is eligible again, and when a
Select() call picks it the returned Target has been promoted to Probing
(the promotion happens inside `select` itself, not in any background
task). -/
theorem C4_promotion_timing (cfg : Config) (now : Nat) (p : Pool) (i : Nat)
    (t : Target) (hget : p.targets[i]? = some t)
    (hq : t.state = .Quarantined) :
    (now < t.quarantinedAt + cfg.quarantinePeriod →
      ∀ k u p', select cfg now p = .ok (k, u, p') → k ≠ i) ∧
    (t.quarantinedAt + cfg.quarantinePeriod ≤ now →
      eligibleAt cfg now t = true ∧
      ∀ u p', select cfg now p = .ok (i, u, p') → u.state = .Probing) := by
  constructor
  · intro hlt k u p' hsel hki
    subst hki
    obtain ⟨v, hv, hvelig, _, _⟩ := select_ok_inv hsel
    rw [hget] at hv
    injection hv with hv
    subst hv
    have hfalse : eligibleAt cfg now t = false := eligibleAt_false_iff.2 ⟨hq, hlt⟩
    rw [hvelig] at hfalse
    exact Bool.noConfusion hfalse
  · intro hle
    refine ⟨by simp [eligibleAt, hq, hle], ?_⟩
    intro u p' hsel
    obtain ⟨v, hv, _, hueq, _⟩ := select_ok_inv hsel
    rw [hget] at hv
    injection hv with hv
    subst hv
    rw [hueq]
    unfold promote
    rw [if_pos ⟨hq, hle⟩]

/-- C4 witness: with period 5, a Target quarantined at time 4 is eligible
again exactly at time 9. -/
theorem C4_witness :
    eligibleAt (⟨3, 5, 1, 1, 1⟩ : Config) 9 ⟨1, .Quarantined, 4, 0⟩ = true :=
  ((C4_promotion_timing ⟨3, 5, 1, 1, 1⟩ 9 ⟨[⟨1, .Quarantined, 4, 0⟩], 0⟩ 0
      ⟨1, .Quarantined, 4, 0⟩ rfl rfl).2 (by decide)).1

/-- A constant network oracle (every attempt succeeds after one time unit)
used to instantiate the Forward theorems at concrete inputs. -/
def netW : Nat → Target → Outcome × Nat := fun _ _ => (.Success, 1)

/-- C5 (amended): Forward terminates with a genuine backend response or a
synthesized failure, in time at most
`(connectTimeout + responseTimeout) * (maxRetries + 1)` whenever each
attempt's time respects the per-attempt timeouts; and when every Target is
Quarantined with an unexpired quarantine period it returns the synthesized
failure without any network call. -/
theorem C5_bounded_completion (cfg : Config)
    (net : Nat → Target → Outcome × Nat) (now : Nat) (p : Pool)
    (hnet : ∀ a t, (net a t).2 ≤ cfg.connectTimeout + cfg.responseTimeout) :
    (forward cfg net now p).time ≤
      (cfg.connectTimeout + cfg.responseTimeout) * (cfg.maxRetries + 1) ∧
    ((forward cfg net now p).result = .synthesized ∨
      ∃ t, (forward cfg net now p).result = .backend t) ∧
    ((∀ t ∈ p.targets, t.state = .Quarantined ∧
        now < t.quarantinedAt + cfg.quarantinePeriod) →
      (forward cfg net now p).result = .synthesized ∧
      (forward cfg net now p).networkCalls = 0) := by
  refine ⟨(forwardGo_bound cfg net now hnet (cfg.maxRetries + 1) p 0).1,
    fwdResult_total _, ?_⟩
  intro hall
  have herr : select cfg now p = .error .NoHealthyTargets :=
    (select_error_iff cfg now p).2 (fun t ht => eligibleAt_false_iff.2 (hall t ht))
  rw [forward_of_select_error herr]
  exact ⟨rfl, rfl⟩

/-- C5 witness: one healthy Target, a succeeding oracle, time within the
bound. -/
theorem C5_witness :
    (forward (⟨3, 5, 1, 1, 2⟩ : Config) netW 0
        ⟨[⟨1, .Healthy, 0, 0⟩], 0⟩).time ≤ (1 + 1) * (2 + 1) :=
  (C5_bounded_completion ⟨3, 5, 1, 1, 2⟩ netW 0 ⟨[⟨1, .Healthy, 0, 0⟩], 0⟩
      (fun _ _ => Nat.le_succ 1)).1

/-- C5 counterexample: with every Target Quarantined but the quarantine
period elapsed, Forward promotes a Target and does attempt a network call
(one call, a backend result), so "when every Target is quarantined it
returns the synthesized failure without attempting any network call" is
false as stated. -/
theorem C5_counterexample :
    (∀ t ∈ (⟨[⟨1, .Quarantined, 0, 0⟩], 0⟩ : Pool).targets,
        t.state = .Quarantined) ∧
    (forward (⟨3, 5, 1, 1, 1⟩ : Config) netW 5
        ⟨[⟨1, .Quarantined, 0, 0⟩], 0⟩).networkCalls = 1 ∧
    (forward (⟨3, 5, 1, 1, 1⟩ : Config) netW 5
        ⟨[⟨1, .Quarantined, 0, 0⟩], 0⟩).result = .backend ⟨1, .Probing, 0, 0⟩ :=
  ⟨by decide, rfl, rfl⟩

/-- C6: recording Success on a Healthy Target with a zero counter is the
identity, and so any number of repeated Success outcomes changes nothing. -/
theorem C6_success_idempotent (cfg : Config) (now : Nat) (t : Target)
    (hs : t.state = .Healthy) (hc : t.consecutiveFailures = 0) :
    record cfg now t .Success = t ∧
    ∀ n : Nat, (fun u => record cfg now u .Success)^[n] t = t := by
  have hfix : record cfg now t .Success = t := by
    obtain ⟨tid, st, qa, cf⟩ := t
    dsimp only at hs hc
    subst hs
    subst hc
    rfl
  exact ⟨hfix, fun n => Function.iterate_fixed hfix n⟩

/-- C6 witness: five repeated Successes leave a fresh Healthy Target
untouched. -/
theorem C6_witness :
    (fun u => record (⟨3, 5, 1, 1, 1⟩ : Config) 0 u .Success)^[5]
        ⟨1, .Healthy, 2, 0⟩ = ⟨1, .Healthy, 2, 0⟩ :=
  (C6_success_idempotent ⟨3, 5, 1, 1, 1⟩ 0 ⟨1, .Healthy, 2, 0⟩ rfl rfl).2 5

/-- C8 (amended): `POST /users` answers 400 with `success: false` and leaves
the users array unchanged when `name` or `email` is missing or empty (falsy,
as JavaScript's `!name` computes); otherwise it answers 201 and appends
exactly one user whose id is the previous array length plus one. -/
theorem C8_post_users_validation (users : List User) (nm em : Option String) :
    ((isFalsy nm || isFalsy em) = true →
      (postUsers users nm em).1 = ⟨400, false, none⟩ ∧
      (postUsers users nm em).2 = users) ∧
    ((isFalsy nm || isFalsy em) = false →
      (postUsers users nm em).1.status = 201 ∧
      (postUsers users nm em).1.success = true ∧
      (postUsers users nm em).2 =
        users ++ [⟨users.length + 1, nm.getD "", em.getD ""⟩]) := by
  constructor
  · intro h
    simp [postUsers, h]
  · intro h
    simp [postUsers, h]

/-- C8 counterexample: an empty-string `name` is present (not missing), yet
the handler answers 400 and appends nothing, so "otherwise it returns
status 201" is false as stated. -/
theorem C8_counterexample :
    (some "" : Option String) ≠ none ∧
    (some "jane@example.com" : Option String) ≠ none ∧
    (postUsers initialUsers (some "") (some "jane@example.com")).1.status
      = 400 ∧
    (postUsers initialUsers (some "") (some "jane@example.com")).2
      = initialUsers :=
  ⟨by simp, by simp, rfl, rfl⟩

/-- C9: every `GET /users` response has `count` equal to the length of its
`data` array, answers 200 with `success: true`, and handling the request
leaves the users array unchanged. -/
theorem C9_get_users_consistency (users : List User) :
    (getUsers users).1.count = (getUsers users).1.data.length ∧
    (getUsers users).1.status = 200 ∧
    (getUsers users).1.success = true ∧
    (getUsers users).2 = users :=
  ⟨rfl, rfl, rfl, rfl⟩

/-- Twice the compute loop's total is `n * (n - 1)` (Gauss). -/
theorem two_mul_computeLoop (n : Nat) : 2 * computeLoop n = n * (n - 1) := by
  induction n with
  | zero => rfl
  | succ m ih =>
    have hstep : computeLoop (m + 1) = computeLoop m + m := rfl
    rw [hstep, Nat.mul_add, ih, Nat.succ_sub_one]
    cases m with
    | zero => rfl
    | succ k =>
      rw [Nat.succ_sub_one]
      ring

/-- C10: `GET /compute` always answers `success: true` with total
`49999995000000`, the sum of 0 through 10^7 - 1, independent of server
state. -/
theorem C10_compute_deterministic (users : List User) :
    (computeHandler users).1 = ⟨true, 49999995000000⟩ ∧
    (computeHandler users).2 = users := by
  have h := two_mul_computeLoop 10000000
  norm_num at h
  have hcl : computeLoop 10000000 = 49999995000000 := by omega
  exact ⟨by simp [computeHandler, hcl], rfl⟩

end MiniCloud
